import Mathlib

/-!
Verification of the nimblecache server against its specification.

The Rust sources are embedded shallowly: Rust String data is a list of
unicode scalar values (Lean Char, matching Rust char), byte buffers are
lists of Nat (each below 256), machine-integer casts are made explicit,
and fallible operations return Except or a dedicated result type.  A
Rust panic (index out of bounds, unimplemented) is a dedicated
constructor, never silently absorbed into an error value.
-/

/-- Rust String / str data: the sequence of unicode scalar values. -/
abbrev Str := List Char

/-- Byte buffers (bytes::BytesMut, Vec of u8) as lists of Nat. -/
abbrev Bytes := List Nat

/-- UTF-8 encoding of one unicode scalar value, as Rust String stores it.
Divisions and remainders spell out the bit shifts of the standard encoding. -/
def utf8EncodeChar (c : Char) : Bytes :=
  let v := c.toNat
  if v < 128 then [v]
  else if v < 2048 then [192 + v / 64, 128 + v % 64]
  else if v < 65536 then [224 + v / 4096, 128 + (v / 64) % 64, 128 + v % 64]
  else [240 + v / 262144, 128 + (v / 4096) % 64, 128 + (v / 64) % 64, 128 + v % 64]

/-- Bytes of a Rust String: the UTF-8 encoding of its scalar values. -/
def strBytes (s : Str) : Bytes := (s.map utf8EncodeChar).flatten

/-- Test for a UTF-8 continuation byte (high bits 10). -/
def isCont (b : Nat) : Bool := 128 ≤ b ∧ b < 192

/-- Code point of a two-byte UTF-8 sequence, when valid. Two-byte leads below
194 would be overlong and are rejected by the caller. -/
def utf8Check2 (b b2 : Nat) : Option Nat :=
  if isCont b2 then some ((b - 192) * 64 + (b2 - 128)) else none

/-- Code point of a three-byte UTF-8 sequence, when valid: continuation bytes,
no overlong encoding, no surrogate. -/
def utf8Check3 (b b2 b3 : Nat) : Option Nat :=
  if isCont b2 && isCont b3 then
    let cp := (b - 224) * 4096 + (b2 - 128) * 64 + (b3 - 128)
    if cp < 2048 then none
    else if 55296 ≤ cp ∧ cp < 57344 then none
    else some cp
  else none

/-- Code point of a four-byte UTF-8 sequence, when valid: continuation bytes,
no overlong encoding, at most 1114111. -/
def utf8Check4 (b b2 b3 b4 : Nat) : Option Nat :=
  if isCont b2 && isCont b3 && isCont b4 then
    let cp := (b - 240) * 262144 + (b2 - 128) * 4096 + (b3 - 128) * 64 + (b4 - 128)
    if cp < 65536 then none
    else if cp > 1114111 then none
    else some cp
  else none

mutual
/-- Strict UTF-8 decoding, as Rust String::from_utf8 validates it: continuation
bytes must lie in 128..191, overlong encodings, surrogate code points and code
points above 1114111 are rejected. -/
def utf8Decode : Bytes → Option Str
  | [] => some []
  | b :: rest =>
    if b < 128 then (utf8Decode rest).map (fun cs => Char.ofNat b :: cs)
    else if b < 194 then none
    else if b < 224 then utf8DecodeTail2 b rest
    else if b < 240 then utf8DecodeTail3 b rest
    else if b < 245 then utf8DecodeTail4 b rest
    else none

/-- Continuation of utf8Decode after a two-byte lead. -/
def utf8DecodeTail2 (b : Nat) : Bytes → Option Str
  | b2 :: rest2 =>
    (utf8Check2 b b2).bind fun cp => (utf8Decode rest2).map (fun cs => Char.ofNat cp :: cs)
  | [] => none

/-- Continuation of utf8Decode after a three-byte lead. -/
def utf8DecodeTail3 (b : Nat) : Bytes → Option Str
  | b2 :: b3 :: rest3 =>
    (utf8Check3 b b2 b3).bind fun cp => (utf8Decode rest3).map (fun cs => Char.ofNat cp :: cs)
  | _ => none

/-- Continuation of utf8Decode after a four-byte lead. -/
def utf8DecodeTail4 (b : Nat) : Bytes → Option Str
  | b2 :: b3 :: b4 :: rest4 =>
    (utf8Check4 b b2 b3 b4).bind fun cp => (utf8Decode rest4).map (fun cs => Char.ofNat cp :: cs)
  | _ => none
end

/-- Decimal digits of n, most significant first, computed with enough fuel;
mirrors what format! of an unsigned integer prints. -/
def natDigitsF : Nat → Nat → List Nat
  | 0, n => [n % 10]
  | fuel + 1, n => if n < 10 then [n] else natDigitsF fuel (n / 10) ++ [n % 10]

/-- Decimal digits of n, most significant first. -/
def natDigits (n : Nat) : List Nat := natDigitsF n n

/-- ASCII bytes of the decimal representation of n, as format! emits them. -/
def decBytes (n : Nat) : Bytes := (natDigits n).map (fun d => 48 + d)

/-- Value of a big-endian decimal digit sequence. -/
def digitsVal (ds : List Nat) : Nat := ds.foldl (fun a d => a * 10 + d) 0

/-- Test for an ASCII decimal digit, as Rust u64 parsing accepts them. -/
def isDigitChar (c : Char) : Bool := 48 ≤ c.toNat ∧ c.toNat ≤ 57

/-- Rust str::parse for an unsigned 64-bit integer (usize / u64 on the 64-bit
targets this server builds for): an optional leading plus sign, then one or
more decimal digits, value below 2 to the 64th (overflow is an error). -/
def rustParseU64 (s : Str) : Option Nat :=
  let t := match s with
    | c :: rest => if c = '+' then rest else s
    | [] => s
  if t.isEmpty then none
  else if t.all isDigitChar then
    let v := digitsVal (t.map (fun c => c.toNat - 48))
    if v < 2 ^ 64 then some v else none
  else none

/-- Errors of the RESP parser, from src/resp/mod.rs. -/
inductive RespError where
  | InvalidDataTypePrefix
  | InvalidBulkString (msg : String)
  | InvalidArray (msg : String)
  | Other (msg : String)
deriving DecidableEq, Repr

/-- RESP values, from the enum in src/resp/types.rs.  The sources are an
inconsistent snapshot here: the enum in types.rs has five variants, while
src/command/del.rs and src/command/lpush.rs construct RespType::Integer
(the spec, section 8, notes the integer reply encoding as a variant
implementers must add).  The Integer variant is included so that the command
layer is representable; types.rs gives it no encoding (to_bytes returns
none for it, the arm that is unimplemented in the source). -/
inductive RespType where
  | SimpleString (s : Str)
  | BulkString (s : Str)
  | NullBulkString
  | Array (items : List RespType)
  | SimpleError (s : Str)
  | Integer (n : Int)

/-- Outcome of RespType::parse: a value with its consumed-byte count, a
RespError, a Rust panic (out-of-bounds index on an empty buffer), or fuel
exhaustion of the embedding (never reached from RespType.parse, whose fuel
covers any nesting the buffer can hold). -/
inductive ParseResult where
  | ok (v : RespType) (n : Nat)
  | fail (e : RespError)
  | panicked
  | outOfFuel

/-- Scan for the first CRLF pair, returning the bytes before it and the count
of bytes consumed through it; none when no CRLF pair occurs
(RespType::read_till_crlf). -/
def read_till_crlf : Bytes → Option (Bytes × Nat)
  | [] => none
  | [_] => none
  | b1 :: b2 :: rest =>
    if b1 = 13 ∧ b2 = 10 then some ([], 2)
    else
      match read_till_crlf (b2 :: rest) with
      | some (data, n) => some (b1 :: data, n + 1)
      | none => none

/-- RespType::parse_usize_from_buf: UTF-8 decode the bytes, then parse an
unsigned integer, with the error values of the source. -/
def parse_usize_from_buf (buf : Bytes) : Except RespError Nat :=
  match utf8Decode buf with
  | none => .error (.Other "Invalid UTF-8 string")
  | some s =>
    match rustParseU64 s with
    | none => .error (.Other "Invalid value for an integer")
    | some n => .ok n

/-- RespType::new_bulk_string from src/resp/types.rs: read the length header
up to CRLF, slice the body, UTF-8 validate it.  A declared body end at or past
the buffer end is the InvalidBulkString error of the source (the source has no
Incomplete outcome at this level). -/
def RespType.new_bulk_string (buffer : Bytes) : ParseResult :=
  match read_till_crlf (buffer.drop 1) with
  | none => .fail (.InvalidBulkString "Invalid value for bulk string")
  | some (buf_data, len) =>
    match parse_usize_from_buf buf_data with
    | .error e => .fail e
    | .ok bulkstr_len =>
      let bytes_consumed := len + 1
      let bulkstr_end_idx := bytes_consumed + bulkstr_len
      if buffer.length ≤ bulkstr_end_idx then
        .fail (.InvalidBulkString "Invalid value for bulk string length")
      else
        match utf8Decode ((buffer.drop bytes_consumed).take bulkstr_len) with
        | some bs => .ok (.BulkString bs) (bulkstr_end_idx + 2)
        | none => .fail (.InvalidBulkString "Bulk string value is not a valid UTF-8 string")

/-- Loop body of RespType::new_array: parse k items sequentially, each from the
buffer suffix at the running consumed count, appending each parsed item
(items.push).  The item parser is passed in, closing the recursion knot
through the fuel of RespType.parseF. -/
def RespType.new_array_items (p : Bytes → ParseResult) (buffer : Bytes) :
    Nat → Nat → List RespType → ParseResult
  | 0, bytes_consumed, items => .ok (.Array items) bytes_consumed
  | k + 1, bytes_consumed, items =>
    if buffer.length ≤ bytes_consumed then
      .fail (.InvalidArray "Invalid value for array length")
    else
      match p (buffer.drop bytes_consumed) with
      | .ok data bytes_read =>
        RespType.new_array_items p buffer k (bytes_consumed + bytes_read) (items ++ [data])
      | .fail e => .fail e
      | .panicked => .panicked
      | .outOfFuel => .outOfFuel

/-- RespType::new_array from src/resp/types.rs: read the length header up to
CRLF, then parse that many items from the remaining bytes. -/
def RespType.new_array (p : Bytes → ParseResult) (buffer : Bytes) : ParseResult :=
  match read_till_crlf (buffer.drop 1) with
  | none => .fail (.InvalidArray "Invalid value for array")
  | some (buf_data, len) =>
    match parse_usize_from_buf buf_data with
    | .error e => .fail e
    | .ok arr_len => RespType.new_array_items p buffer arr_len (len + 1) []

/-- RespType::parse with explicit recursion fuel: dispatch on the first byte,
dollar to new_bulk_string, star to new_array, anything else is
InvalidDataTypePrefix; indexing byte zero of an empty buffer panics. -/
def RespType.parseF : Nat → Bytes → ParseResult
  | 0, _ => .outOfFuel
  | fuel + 1, buffer =>
    match buffer with
    | [] => .panicked
    | b :: _ =>
      if b = 36 then RespType.new_bulk_string buffer
      else if b = 42 then RespType.new_array (RespType.parseF fuel) buffer
      else .fail .InvalidDataTypePrefix

/-- RespType::parse.  Each nested parse runs on a buffer at least three bytes
shorter (an array header is at least three bytes past its star), so fuel one
more than the buffer length is never exhausted. -/
def RespType.parse (buffer : Bytes) : ParseResult :=
  RespType.parseF (buffer.length + 1) buffer

mutual
/-- RespType::to_bytes from src/resp/types.rs.  The BulkString header length is
bs.chars().count() in the source, the count of scalar values, embedded here as
the list length of the text; none models the unimplemented arm reached by the
Integer variant that types.rs does not know. -/
def RespType.to_bytes : RespType → Option Bytes
  | .SimpleString ss => some (43 :: strBytes ss ++ [13, 10])
  | .BulkString bs => some (36 :: decBytes bs.length ++ [13, 10] ++ strBytes bs ++ [13, 10])
  | .NullBulkString => some [36, 45, 49, 13, 10]
  | .Array arr =>
    match RespType.to_bytes_list arr with
    | some bss => some (42 :: decBytes arr.length ++ [13, 10] ++ bss)
    | none => none
  | .SimpleError es => some (45 :: strBytes es ++ [13, 10])
  | .Integer _ => none

/-- Concatenated encodings of a list of RESP values (the iterator chain in the
Array arm of to_bytes). -/
def RespType.to_bytes_list : List RespType → Option Bytes
  | [] => some []
  | v :: vs =>
    match RespType.to_bytes v, RespType.to_bytes_list vs with
    | some b, some bs => some (b ++ bs)
    | _, _ => none
end

/-- RespType::parse_bulk_string_len from src/resp/types.rs: none of the option
means no CRLF yet (the caller must read more); a header shorter than four bytes
or not starting with a dollar is an error. -/
def RespType.parse_bulk_string_len (src : Bytes) : Except RespError (Option (Nat × Nat)) :=
  match read_till_crlf src with
  | none => .ok none
  | some (pb, bytes_read) =>
    if bytes_read < 4 ∨ pb.head? ≠ some 36 then
      .error (.InvalidBulkString "Not a valid RESP bulk string")
    else
      match parse_usize_from_buf (pb.drop 1) with
      | .ok len => .ok (some (len, bytes_read))
      | .error e => .error e

/-! Framed connection codec, modelled where the source file is absent. -/

/-- Outcome of one decode attempt of the framed codec: a complete value with
its consumed count, a request for more bytes, or a fatal protocol error. -/
inductive FrameDecode where
  | value (v : RespType) (consumed : Nat)
  | incomplete
  | invalid (e : RespError)

/-- Modelled from the spec: the framed connection codec RespCommandFrame
(declared as the resp::frame module in src/resp/mod.rs and used by
src/handler.rs, but src/resp/frame.rs is not among the sources).  Spec 4.1
and 4.2: the codec attempts to parse one bulk string from the head of the
buffer; a buffer that does not yet hold the complete bulk string (header,
declared body, trailing CRLF) is Incomplete, so the caller reads more bytes
and retries; only a malformed prefix is Invalid.  The declared-length check
uses RespType.parse_bulk_string_len from src/resp/types.rs, whose none case
(no CRLF yet) is also Incomplete. -/
def frameDecodeBulkString (buffer : Bytes) : FrameDecode :=
  match RespType.parse_bulk_string_len buffer with
  | .error e => .invalid e
  | .ok none => .incomplete
  | .ok (some (len, bytes_read)) =>
    if buffer.length < bytes_read + len + 2 then .incomplete
    else
      match RespType.parse buffer with
      | .ok v n => .value v n
      | .fail e => .invalid e
      | _ => .invalid (.Other "unreachable: parse does not panic on a complete bulk string")

/-! The keyspace store, from src/storage/db.rs and src/storage/mod.rs. -/

/-- Key of the database map: the name and optional expiry instant
(time::OffsetDateTime, modelled as milliseconds from the unix epoch)
(src/storage/db.rs).  PartialEq and Hash for Key use only the value field. -/
structure Key where
  value : Str
  expiry : Option Int
deriving DecidableEq

/-- The type of data stored against a key.  A Rust VecDeque of Strings is a
Lean list whose head is the front of the deque. -/
inductive Value where
  | String (s : Str)
  | List (l : List Str)
deriving DecidableEq

/-- The value stored against a key in the database. -/
structure Entry where
  value : Value
deriving DecidableEq

/-- Database events published on the store's broadcast channel
(src/storage/mod.rs). -/
inductive DBEvent where
  | SetKeyExpiry (p : Int × Str)
  | BulkDelKeys (l : List (Int × Str))
deriving DecidableEq

/-- Errors of DB operations (src/storage/mod.rs). -/
inductive DBError where
  | WrongType
  | Other (msg : Str)
deriving DecidableEq

/-- Display for DBError, the text written into SimpleError replies. -/
def DBError.display : DBError → Str
  | .WrongType => "WRONGTYPE Operation against a key holding the wrong kind of value".data
  | .Other msg => msg

/-- The HashMap of the store as an association list; at most one pair per name
in any state the operations build.  Key equality is by name only. -/
abbrev DBMap := List (Key × Entry)

/-- HashMap::get_key_value with the Key equality of the source (PartialEq on
Key compares only the value field): the first pair with the given name. -/
def mapGetKeyValue (m : DBMap) (k : Str) : Option (Key × Entry) :=
  m.find? (fun p => decide (p.1.value = k))

/-- HashMap::insert: when an equal key is present the value is replaced and
the stored key object is kept (the documented std::collections::HashMap
behavior: the key is not updated); otherwise the pair is added. -/
def mapInsert (m : DBMap) (k : Key) (e : Entry) : DBMap :=
  if m.any (fun p => decide (p.1.value = k.value)) then
    m.map (fun p => if p.1.value = k.value then (p.1, e) else p)
  else m ++ [(k, e)]

/-- HashMap::get_mut followed by an in-place overwrite of the entry; the
stored key is untouched. -/
def mapAdjust (m : DBMap) (k : Str) (e : Entry) : DBMap :=
  m.map (fun p => if p.1.value = k then (p.1, e) else p)

/-- HashMap::remove / remove_entry by name. -/
def mapRemove (m : DBMap) (k : Str) : DBMap :=
  m.filter (fun p => decide (p.1.value ≠ k))

/-- DB::get from src/storage/db.rs.  The lock-poison error path is outside
this sequential model. -/
def DB.get (m : DBMap) (k : Str) : Except DBError (Option Str) :=
  match mapGetKeyValue m k with
  | none => .ok none
  | some (_, entry) =>
    match entry.value with
    | .String s => .ok (some s)
    | _ => .error .WrongType

/-- DB::set from src/storage/db.rs: reject when the existing entry is not a
String, insert the entry under Key::new(k, expiry_ts), and publish
SetKeyExpiry when a deadline is present.  The model returns the published
events; the channel send succeeds in the running server because the evictor
subscribes at startup (its failure path returns the inserted state with an
error and is outside this model). -/
def DB.set (m : DBMap) (k : Str) (v : Value) (expiry_ts : Option Int) :
    Except DBError (DBMap × List DBEvent) :=
  let key : Key := ⟨k, expiry_ts⟩
  let events : List DBEvent :=
    match expiry_ts with
    | some expiry => [.SetKeyExpiry (expiry, k)]
    | none => []
  match mapGetKeyValue m k with
  | some (_, entry) =>
    match entry.value with
    | .String _ => .ok (mapInsert m key ⟨v⟩, events)
    | _ => .error .WrongType
  | none => .ok (mapInsert m key ⟨v⟩, events)

/-- DB::lpush from src/storage/db.rs: push each given value to the front of
the existing list, in argument order; when the key is absent the deque is
built with VecDeque::from(v), which keeps the argument order (the head of v
becomes the front).  Returns the new length. -/
def DB.lpush (m : DBMap) (k : Str) (v : List Str) : Except DBError (DBMap × Nat) :=
  match mapGetKeyValue m k with
  | some (_, entry) =>
    match entry.value with
    | .List l =>
      let l2 := v.foldl (fun acc each => each :: acc) l
      .ok (mapAdjust m k ⟨.List l2⟩, l2.length)
    | _ => .error .WrongType
  | none => .ok (mapInsert m ⟨k, none⟩ ⟨.List v⟩, v.length)

/-- DB::rpush from src/storage/db.rs: append each value in argument order;
when the key is absent the deque is VecDeque::from(v). -/
def DB.rpush (m : DBMap) (k : Str) (v : List Str) : Except DBError (DBMap × Nat) :=
  match mapGetKeyValue m k with
  | some (_, entry) =>
    match entry.value with
    | .List l =>
      let l2 := l ++ v
      .ok (mapAdjust m k ⟨.List l2⟩, l2.length)
    | _ => .error .WrongType
  | none => .ok (mapInsert m ⟨k, none⟩ ⟨.List v⟩, v.length)

/-- The Rust cast `as usize` (also `as u64`) of a signed value: two's
complement wrap into 0 .. 2^64 - 1. -/
def intToUsize (n : Int) : Nat := (n % (2 ^ 64 : Int)).toNat

/-- DB::round_list_index from src/storage/db.rs: negative indices count from
the end (idx.abs is exact here; the i64 overflow of abs at the minimum value
is outside this model), indices at or past the length round to length - 1. -/
def DB.round_list_index (list_len idx : Int) : Nat :=
  if idx < 0 then
    let i := list_len - (idx.natAbs : Int)
    if i < 0 then 0 else intToUsize i
  else if list_len ≤ idx then intToUsize (list_len - 1)
  else intToUsize idx

/-- DB::round_list_indices from src/storage/db.rs: raw stop below raw start
gives (0, 0); otherwise both indices are rounded, and the pair is widened to
a half-open range, a single-element range, or (0, 0). -/
def DB.round_list_indices (list_len start_idx stop_idx : Int) : Nat × Nat :=
  if stop_idx < start_idx then (0, 0)
  else
    let rounded_start_idx := DB.round_list_index list_len start_idx
    let rounded_stop_idx := DB.round_list_index list_len stop_idx
    if rounded_start_idx < rounded_stop_idx then (rounded_start_idx, rounded_stop_idx + 1)
    else if rounded_start_idx = rounded_stop_idx then (rounded_start_idx, rounded_start_idx + 1)
    else (0, 0)

/-- DB::lrange from src/storage/db.rs: absent key gives an empty list, a
non-List entry is WrongType, otherwise the slice of the rounded half-open
range.  VecDeque::range(a..b) of the source panics when a > b or b exceeds
the length; for the nonempty lists this store holds the rounded indices are
always in range (the lrange theorems prove the bounds), and drop then take
realizes the slice. -/
def DB.lrange (m : DBMap) (k : Str) (start_idx stop_idx : Int) : Except DBError (List Str) :=
  match mapGetKeyValue m k with
  | none => .ok []
  | some (_, entry) =>
    match entry.value with
    | .List l =>
      let p := DB.round_list_indices (l.length : Int) start_idx stop_idx
      .ok ((l.drop p.1).take (p.2 - p.1))
    | _ => .error .WrongType

/-- DB::del from src/storage/db.rs: remove the pair and return its entry; no
event is published. -/
def DB.del (m : DBMap) (k : Str) : DBMap × Option Entry :=
  (mapRemove m k, (mapGetKeyValue m k).map (fun p => p.2))

/-- Loop of DB::bulk_del: remove each name, counting the removals and
collecting (expiry, name) for each removed key that carried an expiry, in
iteration order. -/
def bulkDelLoop : DBMap → List Str → DBMap × Nat × List (Int × Str)
  | m, [] => (m, 0, [])
  | m, k :: ks =>
    match mapGetKeyValue m k with
    | some (key, _) =>
      let r := bulkDelLoop (mapRemove m k) ks
      (r.1, r.2.1 + 1,
        (match key.expiry with
         | some e => [(e, key.value)]
         | none => []) ++ r.2.2)
    | none => bulkDelLoop m ks

/-- DB::bulk_del from src/storage/db.rs: the removal count, and one
BulkDelKeys event when at least one removed key carried an expiry. -/
def DB.bulk_del (m : DBMap) (keys : List Str) : DBMap × Nat × List DBEvent :=
  let r := bulkDelLoop m keys
  (r.1, r.2.1, if r.2.2.isEmpty then [] else [.BulkDelKeys r.2.2])

/-! The TTL index and evictor, from src/storage/ttl.rs. -/

/-- Lexicographic strictly-less on strings by scalar value; for UTF-8 this
equals the byte order Rust String Ord uses. -/
def strLtB : Str → Str → Bool
  | [], [] => false
  | [], _ :: _ => true
  | _ :: _, [] => false
  | c :: cs, d :: ds =>
    if c.toNat < d.toNat then true
    else if c.toNat = d.toNat then strLtB cs ds
    else false

/-- Strict order of the BTreeSet of (OffsetDateTime, String) pairs: by
deadline, ties broken by name. -/
def pairLtB (a b : Int × Str) : Bool :=
  if a.1 < b.1 then true
  else if a.1 = b.1 then strLtB a.2 b.2
  else false

/-- KeyEvictor::evict_keys from src/storage/ttl.rs, over the index snapshot
in the BTreeSet iteration order (strictly ascending pairLtB): pop the least
entry while its deadline is not after the cutoff, deleting the name from the
store each time; stop at the first later deadline and return it as the next
wake time, or none when the index empties.  The lock-poison error paths are
outside this sequential model. -/
def KeyEvictor.evict_keys (store : DBMap) (expiries : List (Int × Str))
    (expire_till : Int) : DBMap × List (Int × Str) × Option Int :=
  match expiries with
  | [] => (store, [], none)
  | (wh, key) :: rest =>
    if expire_till < wh then (store, (wh, key) :: rest, some wh)
    else KeyEvictor.evict_keys (mapRemove store key) rest expire_till

/-! The replication state and the slave-side handshake, from
src/replication/mod.rs and src/replication/master.rs. -/

/-- Decimal text of an unsigned integer, as to_string / format! prints it. -/
def natDecimalChars (n : Nat) : Str := (natDigits n).map (fun d => Char.ofNat (48 + d))

/-- Replication state snapshot (src/replication/mod.rs): the server id, the
offset counter value, and the optional master host and port of a slave. -/
structure Replication where
  id : Str
  offset : Nat
  master_host : Option Str
  master_port : Option Nat
deriving DecidableEq

/-- Replication::is_slave: a master host is assigned. -/
def Replication.is_slave (r : Replication) : Bool := r.master_host.isSome

/-- Replication::info_str from src/replication/mod.rs. -/
def Replication.info_str (r : Replication) : Str :=
  "role:".data ++
    (if r.is_slave then "slave".data
     else
       "master\n".data ++ "master_replid:".data ++ r.id ++ "\n".data ++
         "master_repl_offset:".data ++ natDecimalChars r.offset ++ "\n".data)

/-- Modelled from the spec: RespType::new_simple_string is called by
MasterServer::perform_handshake (src/replication/master.rs) but its
definition is missing from src/resp/types.rs in these sources.  Spec 4.1:
a SimpleString is the wire form plus, text, CRLF; parsing returns the value
and the bytes consumed. -/
def RespType.new_simple_string (buffer : Bytes) : ParseResult :=
  match buffer with
  | 43 :: rest =>
    match read_till_crlf rest with
    | some (data, n) =>
      match utf8Decode data with
      | some s => .ok (.SimpleString s) (n + 1)
      | none => .fail (.Other "Simple string value is not a valid UTF-8 string")
    | none => .fail (.Other "Invalid value for simple string")
  | _ => .fail .InvalidDataTypePrefix

/-- Rust str::starts_with for a string pattern, by scalar values. -/
def strHasPrefixB : Str → Str → Bool
  | _, [] => true
  | [], _ :: _ => false
  | c :: cs, d :: ds => c = d && strHasPrefixB cs ds

/-- Validation of the PING response inside MasterServer::perform_handshake
(src/replication/master.rs): parse with new_simple_string; when the parsed
value is a SimpleString, any text other than PONG is fatal (the if-let
silently skips validation for any other variant). -/
def validate_ping_response (buffer : Bytes) : Except String Unit :=
  match RespType.new_simple_string buffer with
  | .ok ss _ =>
    match ss with
    | .SimpleString s =>
      if s ≠ "PONG".data then
        .error "Invalid response for PING request to master during handshake"
      else .ok ()
    | _ => .ok ()
  | _ => .error "Error response for PING request to master during handshake"

/-- Validation of the PSYNC response inside MasterServer::perform_handshake
(src/replication/master.rs): the source checks the FULLRESYNC text behind
an if-let on the BulkString variant, so a parsed value of any other variant
(in particular the SimpleString that new_simple_string yields) skips the
check entirely. -/
def validate_psync_response (buffer : Bytes) : Except String Unit :=
  match RespType.new_simple_string buffer with
  | .ok ss _ =>
    match ss with
    | .BulkString s =>
      if ¬ strHasPrefixB s "FULLRESYNC".data then
        .error "Invalid response for PSYNC request to master during handshake"
      else .ok ()
    | _ => .ok ()
  | _ => .error "Error response for PSYNC request to master during handshake"

/-- MasterServer::perform_handshake (src/replication/master.rs) as a
function of the two responses the master sends back: PING validation, then
PSYNC validation; the sends themselves and the socket error paths are
outside this model. -/
def MasterServer.perform_handshake (ping_response psync_response : Bytes) :
    Except String Unit :=
  match validate_ping_response ping_response with
  | .error e => .error e
  | .ok _ => validate_psync_response psync_response

/-! The command model, from src/command. -/

/-- Errors of command parsing and execution (src/command/mod.rs). -/
inductive CommandError where
  | InvalidFormat
  | UnknownCommand (cmd : Str)
  | Other (msg : Str)
deriving DecidableEq

/-- Display for CommandError, the text written into SimpleError replies. -/
def CommandError.display : CommandError → Str
  | .InvalidFormat => "Invalid command format".data
  | .UnknownCommand c => "Unknown command: ".data ++ c
  | .Other msg => msg

/-- ASCII lowercasing of one character. -/
def asciiLowerChar (c : Char) : Char :=
  if 65 ≤ c.toNat ∧ c.toNat ≤ 90 then Char.ofNat (c.toNat + 32) else c

/-- Rust str::to_lowercase as the command layer uses it: every name it is
compared against is ASCII, where Unicode and ASCII lowercasing agree. -/
def strLower (s : Str) : Str := s.map asciiLowerChar

/-- The PING command (src/command/ping.rs). -/
structure Ping where
  msg : Option Str
deriving DecidableEq

/-- Ping::with_args: no argument, or one BulkString message. -/
def Ping.with_args (args : List RespType) : Except CommandError Ping :=
  match args with
  | [] => .ok ⟨none⟩
  | a :: _ =>
    match a with
    | .BulkString s => .ok ⟨some s⟩
    | _ => .error (.Other "Invalid message".data)

/-- Ping::apply: the message as a BulkString, else PONG. -/
def Ping.apply (p : Ping) : RespType :=
  match p.msg with
  | some m => .BulkString m
  | none => .SimpleString "PONG".data

/-- Ping::build_command. -/
def Ping.build_command : RespType := .Array [.BulkString "PING".data]

/-- Argument of the INFO command (src/command/info.rs). -/
inductive InfoArg where
  | REPLICATION
deriving DecidableEq

/-- InfoArg::parse: a BulkString matching replication case-insensitively. -/
def InfoArg.parse (arg : RespType) : Except CommandError InfoArg :=
  match arg with
  | .BulkString s =>
    if strLower s = "replication".data then .ok .REPLICATION
    else .error (.Other "Invalid argument for INFO command".data)
  | _ => .error (.Other "Invalid argument. INFO parameters must be in bulk string format".data)

/-- The INFO command (src/command/info.rs). -/
structure Info where
  args : List InfoArg
deriving DecidableEq

/-- Loop of Info::with_args: parse each argument, stopping at an error. -/
def infoArgsLoop : List RespType → Except CommandError (List InfoArg)
  | [] => .ok []
  | a :: rest =>
    match InfoArg.parse a with
    | .ok ia => (infoArgsLoop rest).map (fun l => ia :: l)
    | .error e => .error e

/-- Info::with_args: an empty argument list means all sections. -/
def Info.with_args (args : List RespType) : Except CommandError Info :=
  if args.isEmpty then .ok ⟨[.REPLICATION]⟩
  else (infoArgsLoop args).map Info.mk

/-- Info::apply: concatenated section blocks. -/
def Info.apply (i : Info) (replication : Replication) : RespType :=
  .BulkString
    ((i.args.map (fun a =>
        match a with
        | .REPLICATION => "# Replication\n".data ++ replication.info_str ++ "\n".data)).flatten)

/-- The Rust cast `as i64` of an unsigned 64-bit value: two's complement. -/
def u64ToI64 (n : Nat) : Int := if n < 2 ^ 63 then (n : Int) else (n : Int) - 2 ^ 64

/-- The SET command (src/command/set.rs; named SetCmd because Set is taken
in Lean). -/
structure SetCmd where
  key : Str
  value : Str
  expiry : Option Int
deriving DecidableEq

/-- The option loop of Set::with_args (src/command/set.rs).  The source walks
the option slice by index, SetOption::parse consuming exactly two entries
(name and value) per step; this recursion consumes the same two list
elements per step, with the same bounds checks and errors.  PX sets the
deadline to now plus the given milliseconds (the saturating_add of the
source saturates only at the edges of the representable datetime range,
outside this model); PXAT to the unix epoch plus the given milliseconds.
The millisecond counts parse as u64 and are cast to i64. -/
def SetCmd.parse_options (now : Int) :
    Option Int → List RespType → Except CommandError (Option Int)
  | expiry, [] => .ok expiry
  | _, optName :: rest =>
    match optName with
    | .BulkString o =>
      if strLower o = "px".data then
        match rest with
        | [] => .error (.Other "Value for PX is not specified. Provide an integer value".data)
        | pv :: rest2 =>
          match pv with
          | .BulkString p =>
            match rustParseU64 p with
            | some v => SetCmd.parse_options now (some (now + u64ToI64 v)) rest2
            | none => .error (.Other "Value for PX should be an integer".data)
          | _ => .error (.Other "Value for PX should be in bulk string format".data)
      else if strLower o = "pxat".data then
        match rest with
        | [] => .error (.Other "Value for PXAT is not specified. Provide an integer value".data)
        | pv :: rest2 =>
          match pv with
          | .BulkString p =>
            match rustParseU64 p with
            | some v => SetCmd.parse_options now (some (u64ToI64 v)) rest2
            | none => .error (.Other "Value for PXAT should be an integer".data)
          | _ => .error (.Other "Value for PXAT should be in bulk string format".data)
      else .error (.Other "Invalid option specified".data)
    | _ => .error (.Other "Invalid argument. All arguments should be in bulk string format".data)

/-- Set::with_args from src/command/set.rs: key and value BulkStrings, then
the option loop; fewer than two arguments is an error. -/
def SetCmd.with_args (now : Int) (args : List RespType) : Except CommandError SetCmd :=
  match args with
  | k :: v :: opts =>
    match k with
    | .BulkString key =>
      match v with
      | .BulkString value =>
        match SetCmd.parse_options now none opts with
        | .ok expiry => .ok ⟨key, value, expiry⟩
        | .error e => .error e
      | _ => .error (.Other "Invalid argument. Value must be a bulk string".data)
    | _ => .error (.Other "Invalid argument. Key must be a bulk string".data)
  | _ => .error (.Other "Wrong number of arguments specified for SET command".data)

/-- Set::apply from src/command/set.rs, over an explicit store state: OK as a
BulkString on success, the displayed error as a SimpleError. -/
def SetCmd.apply (s : SetCmd) (m : DBMap) : RespType × DBMap × List DBEvent :=
  match DB.set m s.key (.String s.value) s.expiry with
  | .ok (m2, evts) => (.BulkString "OK".data, m2, evts)
  | .error e => (.SimpleError e.display, m, [])

/-- Set::build_command from src/command/set.rs: the frame replayed on
replicas; a deadline is re-encoded as PXAT with the milliseconds from the
epoch cast to u64. -/
def SetCmd.build_command (s : SetCmd) : RespType :=
  .Array
    ([.BulkString "SET".data, .BulkString s.key, .BulkString s.value] ++
      match s.expiry with
      | some exp_ts =>
        [.BulkString "PXAT".data, .BulkString (natDecimalChars (intToUsize exp_ts))]
      | none => [])

/-- The GET command (src/command/get.rs). -/
structure Get where
  key : Str
deriving DecidableEq

/-- Get::with_args: one BulkString key. -/
def Get.with_args (args : List RespType) : Except CommandError Get :=
  match args with
  | [] => .error (.Other "Wrong number of arguments specified for GET command".data)
  | a :: _ =>
    match a with
    | .BulkString k => .ok ⟨k⟩
    | _ => .error (.Other "Invalid argument. Key must be a bulk string".data)

/-- Get::apply from src/command/get.rs. -/
def Get.apply (g : Get) (m : DBMap) : RespType :=
  match DB.get m g.key with
  | .ok (some s) => .BulkString s
  | .ok none => .NullBulkString
  | .error e => .SimpleError e.display

/-- The DEL command (src/command/del.rs). -/
structure Del where
  keys : List Str
deriving DecidableEq

/-- Loop of Del::with_args: every argument must be a BulkString. -/
def delKeysLoop : List RespType → Except CommandError (List Str)
  | [] => .ok []
  | a :: rest =>
    match a with
    | .BulkString k => (delKeysLoop rest).map (fun l => k :: l)
    | _ => .error (.Other "Invalid argument. Key must be a bulk string".data)

/-- Del::with_args: at least one key, all BulkStrings. -/
def Del.with_args (args : List RespType) : Except CommandError Del :=
  if args.isEmpty then
    .error (.Other "Wrong number of arguments specified for DEL command".data)
  else (delKeysLoop args).map Del.mk

/-- Del::apply from src/command/del.rs: the removal count as an Integer (the
count is at most the argument count, far below the wrap of the `as i64`
cast). -/
def Del.apply (d : Del) (m : DBMap) : RespType × DBMap × List DBEvent :=
  let r := DB.bulk_del m d.keys
  (.Integer (r.2.1 : Int), r.1, r.2.2)

/-- The LPUSH command (src/command/lpush.rs): the source parses exactly one
value; arguments past args[1] are silently ignored. -/
structure LPush where
  key : Str
  value : Str
deriving DecidableEq

/-- LPush::with_args from src/command/lpush.rs: at least two arguments,
args[0] the key and args[1] the value, both BulkStrings; any further
arguments are not read. -/
def LPush.with_args (args : List RespType) : Except CommandError LPush :=
  match args with
  | k :: v :: _ =>
    match k with
    | .BulkString key =>
      match v with
      | .BulkString value => .ok ⟨key, value⟩
      | _ => .error (.Other "Invalid argument. Value must be a bulk string".data)
    | _ => .error (.Other "Invalid argument. Key must be a bulk string".data)
  | _ => .error (.Other "Wrong number of arguments specified for LPUSH command".data)

/-- LPush::apply from src/command/lpush.rs: the source passes its single
parsed value to DB::lpush, embedded as the singleton list; the new length is
an Integer reply. -/
def LPush.apply (l : LPush) (m : DBMap) : RespType × DBMap :=
  match DB.lpush m l.key [l.value] with
  | .ok (m2, len) => (.Integer (len : Int), m2)
  | .error e => (.SimpleError e.display, m)

/-- Modelled from the spec: LPush::build_command is called by
Command::replication_cmd (src/command/mod.rs) but src/command/lpush.rs holds
no such function.  Spec 4.8 and 4.5: the write-command frame forwarded to
replicas, the LPUSH frame for the parsed key and value. -/
def LPush.build_command (l : LPush) : RespType :=
  .Array [.BulkString "LPUSH".data, .BulkString l.key, .BulkString l.value]

/-- Modelled from the spec: src/command/rpush.rs is declared in
src/command/mod.rs but missing from the sources.  Spec 4.5: RPUSH key value
value-list, all BulkStrings, at least one value. -/
structure RPush where
  key : Str
  values : List Str
deriving DecidableEq

/-- Modelled from the spec: RPush::with_args (src/command/rpush.rs missing).
Spec 4.5: a BulkString key and one or more BulkString values; argument-count
and type failures are command errors. -/
def RPush.with_args (args : List RespType) : Except CommandError RPush :=
  match args with
  | k :: v :: vs =>
    match k with
    | .BulkString key =>
      match delKeysLoop (v :: vs) with
      | .ok values => .ok ⟨key, values⟩
      | .error _ => .error (.Other "Invalid argument. Value must be a bulk string".data)
    | _ => .error (.Other "Invalid argument. Key must be a bulk string".data)
  | _ => .error (.Other "Wrong number of arguments specified for RPUSH command".data)

/-- Modelled from the spec: RPush::apply (src/command/rpush.rs missing).
Spec 4.3 and 4.5: append the values in argument order, reply the new length
as an Integer. -/
def RPush.apply (r : RPush) (m : DBMap) : RespType × DBMap :=
  match DB.rpush m r.key r.values with
  | .ok (m2, len) => (.Integer (len : Int), m2)
  | .error e => (.SimpleError e.display, m)

/-- Modelled from the spec: RPush::build_command (src/command/rpush.rs
missing).  Spec 4.8: the RPUSH frame forwarded to replicas. -/
def RPush.build_command (r : RPush) : RespType :=
  .Array ([.BulkString "RPUSH".data, .BulkString r.key] ++ r.values.map .BulkString)

/-- Rust str::parse for i64: an optional sign, then decimal digits, within
the signed 64-bit range. -/
def rustParseI64 (s : Str) : Option Int :=
  match s with
  | '-' :: rest =>
    match rest with
    | [] => none
    | _ =>
      if rest.all isDigitChar then
        let v := digitsVal (rest.map (fun c => c.toNat - 48))
        if v ≤ 2 ^ 63 then some (-(v : Int)) else none
      else none
  | '+' :: rest =>
    match rest with
    | [] => none
    | _ =>
      if rest.all isDigitChar then
        let v := digitsVal (rest.map (fun c => c.toNat - 48))
        if v < 2 ^ 63 then some (v : Int) else none
      else none
  | [] => none
  | _ =>
    if s.all isDigitChar then
      let v := digitsVal (s.map (fun c => c.toNat - 48))
      if v < 2 ^ 63 then some (v : Int) else none
    else none

/-- Modelled from the spec: src/command/lrange.rs is declared in
src/command/mod.rs but missing from the sources.  Spec 4.5: LRANGE key start
stop with signed 64-bit indices. -/
structure LRange where
  key : Str
  start_idx : Int
  stop_idx : Int
deriving DecidableEq

/-- Modelled from the spec: LRange::with_args (src/command/lrange.rs
missing).  Spec 4.5: a BulkString key and two BulkString signed integers. -/
def LRange.with_args (args : List RespType) : Except CommandError LRange :=
  match args with
  | [.BulkString k, .BulkString sa, .BulkString so] =>
    match rustParseI64 sa, rustParseI64 so with
    | some a, some b => .ok ⟨k, a, b⟩
    | _, _ => .error (.Other "Start and stop indices should be integers".data)
  | _ => .error (.Other "Wrong number of arguments specified for LRANGE command".data)

/-- Modelled from the spec: LRange::apply (src/command/lrange.rs missing).
Spec 4.5: the selected elements as an Array of BulkStrings. -/
def LRange.apply (l : LRange) (m : DBMap) : RespType :=
  match DB.lrange m l.key l.start_idx l.stop_idx with
  | .ok vs => .Array (vs.map .BulkString)
  | .error e => .SimpleError e.display

/-- The PSYNC command (src/command/psync.rs). -/
structure Psync where
  replication_id : Str
  offset : Option Nat
deriving DecidableEq

/-- Psync::with_args from src/command/psync.rs: a BulkString replication id,
and an offset that is either the literal -1 (meaning none) or a u64. -/
def Psync.with_args (args : List RespType) : Except CommandError Psync :=
  match args with
  | rid :: off :: _ =>
    match rid with
    | .BulkString id =>
      match off with
      | .BulkString v =>
        if v = "-1".data then .ok ⟨id, none⟩
        else
          match rustParseU64 v with
          | some i => .ok ⟨id, some i⟩
          | none => .error (.Other "Offset should be an integer".data)
      | _ => .error (.Other "Invalid argument. Value must be in bulk string format".data)
    | _ => .error (.Other "Invalid argument. replication id must be a bulk string".data)
  | _ => .error (.Other "Wrong number of arguments specified for PSYNC command".data)

/-- Psync::apply from src/command/psync.rs: always a FULLRESYNC
SimpleString naming the server id and the offset (or -1). -/
def Psync.apply (p : Psync) (replication : Replication) : RespType :=
  let offsetStr := match p.offset with
    | none => "-1".data
    | some v => natDecimalChars v
  .SimpleString ("FULLRESYNC ".data ++ replication.id ++ " ".data ++ offsetStr)

/-- The command union (src/command/mod.rs). -/
inductive Command where
  | Ping (p : Ping)
  | Info (i : Info)
  | Multi
  | Exec
  | Discard
  | Set (s : SetCmd)
  | Get (g : Get)
  | Del (d : Del)
  | LPush (l : LPush)
  | RPush (r : RPush)
  | LRange (l : LRange)
  | Psync (p : Psync)
deriving DecidableEq

/-- Outcome of Command::from_resp_command_frame: a command, a CommandError,
or the panic of frame.split_at(1) on an empty frame. -/
inductive CommandParse where
  | ok (c : Command)
  | err (e : CommandError)
  | panicked
deriving DecidableEq

/-- Map an Except into a CommandParse under a constructor. -/
def liftCmd {α : Type} (r : Except CommandError α) (f : α → Command) : CommandParse :=
  match r with
  | .ok a => .ok (f a)
  | .error e => .err e

/-- Command::from_resp_command_frame from src/command/mod.rs.  The source
begins with frame.split_at(1), which panics on an empty frame (mid greater
than len); with a nonempty frame, the head must be a BulkString naming the
command, matched lowercased, and the tail goes to the command parser.  The
time now is passed for the deadline arithmetic of SET. -/
def Command.from_resp_command_frame (now : Int) (frame : List RespType) : CommandParse :=
  match frame with
  | [] => .panicked
  | first :: args =>
    match first with
    | .BulkString s =>
      let name := strLower s
      if name = "ping".data then liftCmd (Ping.with_args args) Command.Ping
      else if name = "info".data then liftCmd (Info.with_args args) Command.Info
      else if name = "multi".data then .ok .Multi
      else if name = "exec".data then .ok .Exec
      else if name = "discard".data then .ok .Discard
      else if name = "set".data then liftCmd (SetCmd.with_args now args) Command.Set
      else if name = "get".data then liftCmd (Get.with_args args) Command.Get
      else if name = "del".data then liftCmd (Del.with_args args) Command.Del
      else if name = "lpush".data then liftCmd (LPush.with_args args) Command.LPush
      else if name = "rpush".data then liftCmd (RPush.with_args args) Command.RPush
      else if name = "lrange".data then liftCmd (LRange.with_args args) Command.LRange
      else if name = "psync".data then liftCmd (Psync.with_args args) Command.Psync
      else .err (.UnknownCommand s)
    | _ => .err .InvalidFormat

/-- State the store threads through command execution: the map and the
events published to the broadcast channel, in order. -/
structure DbState where
  data : DBMap
  events : List DBEvent
deriving DecidableEq

/-- Command::execute from src/command/mod.rs, over an explicit store state.
MULTI, EXEC and DISCARD are handled by the frame handler and reply fixed
values here, as in the source. -/
def Command.execute (c : Command) (replication : Replication) (st : DbState) :
    RespType × DbState :=
  match c with
  | .Ping p => (p.apply, st)
  | .Info i => (i.apply replication, st)
  | .Multi => (.SimpleString "OK".data, st)
  | .Exec => (.NullBulkString, st)
  | .Discard => (.SimpleString "OK".data, st)
  | .Set s =>
    let r := s.apply st.data
    (r.1, ⟨r.2.1, st.events ++ r.2.2⟩)
  | .Get g => (g.apply st.data, st)
  | .Del d =>
    let r := d.apply st.data
    (r.1, ⟨r.2.1, st.events ++ r.2.2⟩)
  | .LPush l =>
    let r := l.apply st.data
    (r.1, ⟨r.2, st.events⟩)
  | .RPush r =>
    let q := r.apply st.data
    (q.1, ⟨q.2, st.events⟩)
  | .LRange l => (l.apply st.data, st)
  | .Psync p => (p.apply replication, st)

/-- Command::replication_cmd from src/command/mod.rs: the frame forwarded to
replicas for the write commands, none for the rest. -/
def Command.replication_cmd (c : Command) : Option RespType :=
  match c with
  | .Set s => some s.build_command
  | .LPush l => some l.build_command
  | .RPush r => some r.build_command
  | _ => none

/-! The MULTI pipeline, from src/command/pipelining.rs. -/

/-- Errors of pipeline operations. -/
inductive PipelineError where
  | CannotNestMulti
deriving DecidableEq

/-- Display for PipelineError. -/
def PipelineError.display : PipelineError → Str
  | .CannotNestMulti => "MULTI calls cannot be nested".data

/-- The per-connection pipeline state (src/command/pipelining.rs). -/
structure MultiCommand where
  commands : List Command
  is_active : Bool
deriving DecidableEq

/-- MultiCommand::new. -/
def MultiCommand.new : MultiCommand := ⟨[], false⟩

/-- MultiCommand::init: activating an active pipeline is an error. -/
def MultiCommand.init (mc : MultiCommand) : Except PipelineError MultiCommand :=
  if mc.is_active then .error .CannotNestMulti
  else .ok ⟨mc.commands, true⟩

/-- MultiCommand::add_command: append to the queue. -/
def MultiCommand.add_command (mc : MultiCommand) (c : Command) : MultiCommand :=
  ⟨mc.commands ++ [c], mc.is_active⟩

/-- MultiCommand::discard: clear the queue, deactivate. -/
def MultiCommand.discard (_ : MultiCommand) : MultiCommand := ⟨[], false⟩

/-- The loop of MultiCommand::exec: execute each queued command in order,
collect its reply, and collect the frames forwarded to replicas. -/
def execLoop (replication : Replication) :
    List Command → DbState → List RespType × DbState × List RespType
  | [], st => ([], st, [])
  | c :: cs, st =>
    let r := Command.execute c replication st
    let reps : List RespType :=
      match Command.replication_cmd c with
      | some rc => [rc]
      | none => []
    let rest := execLoop replication cs r.2
    (r.1 :: rest.1, rest.2.1, reps ++ rest.2.2)

/-- MultiCommand::exec from src/command/pipelining.rs: run the queue, reply
the collected responses as one Array, then discard the pipeline. -/
def MultiCommand.exec (mc : MultiCommand) (replication : Replication) (st : DbState) :
    RespType × MultiCommand × DbState × List RespType :=
  let r := execLoop replication mc.commands st
  (.Array r.1, MultiCommand.discard mc, r.2.1, r.2.2)

/-- Store state after a list of commands runs in order (the fold the exec
theorems compare the loop against). -/
def dbAfter (replication : Replication) (cs : List Command) (st : DbState) : DbState :=
  cs.foldl (fun s c => (Command.execute c replication s).2) st

deriving instance DecidableEq for Except

mutual
/-- Values on which the RESP encoder and parser of the sources agree: bulk
strings of ASCII text (where the chars-count header of to_bytes equals the
byte length) shorter than 2^64, and arrays of such values with fewer than
2^64 items.  SimpleString, SimpleError and NullBulkString encodings are not
re-parsed by RespType::parse (only dollar and star prefixes are accepted),
and Integer has no encoding. -/
def RespType.goodb : RespType → Bool
  | .BulkString s => s.all (fun c => decide (c.toNat < 128)) && decide (s.length < 2 ^ 64)
  | .Array items => RespType.goodb_list items && decide (items.length < 2 ^ 64)
  | _ => false

/-- Conjunction of goodb over a list of values. -/
def RespType.goodb_list : List RespType → Bool
  | [] => true
  | v :: vs => RespType.goodb v && RespType.goodb_list vs
end

/-- Index normalization in the words of the specification: a negative index
maps to max(0, L + i), a non-negative one to min(L - 1, i). -/
def normalizeIdx (L i : Int) : Int := if i < 0 then max 0 (L + i) else min (L - 1) i

/-- LRANGE in the words of the specification, for comparison with DB.lrange:
raw stop below raw start is empty; otherwise both indices normalize through
normalizeIdx, and the result is the slice from normalized start through
normalized stop inclusive when start does not exceed stop, else empty. -/
def lrangeSpec (l : List Str) (start_idx stop_idx : Int) : List Str :=
  if stop_idx < start_idx then []
  else
    let L : Int := l.length
    let ns := normalizeIdx L start_idx
    let nt := normalizeIdx L stop_idx
    if ns < nt then (l.drop ns.toNat).take (nt + 1 - ns).toNat
    else if ns = nt then (l.drop ns.toNat).take 1
    else []


/-! Helper lemmas for the UTF-8 and decimal helpers. -/

theorem char_toNat_ofNat (m : Nat) (h : m < 55296) : (Char.ofNat m).toNat = m := by
  have hv : m.isValidChar := Or.inl h
  simp only [Char.ofNat, hv, dif_pos, Char.ofNatAux, Char.toNat]
  rfl

theorem char_ofNat_toNat (c : Char) : Char.ofNat c.toNat = c := by
  have hv : c.toNat.isValidChar := c.valid
  apply Char.ext
  simp only [Char.ofNat, hv, dif_pos, Char.ofNatAux]
  cases c with
  | mk v valid =>
    cases v with
    | mk bv =>
      apply congrArg
      apply BitVec.eq_of_toNat_eq
      rfl

theorem utf8EncodeChar_ascii (c : Char) (h : c.toNat < 128) : utf8EncodeChar c = [c.toNat] := by
  simp [utf8EncodeChar, h]

theorem strBytes_ascii (s : Str) (h : ∀ c ∈ s, c.toNat < 128) :
    strBytes s = s.map Char.toNat := by
  induction s with
  | nil => rfl
  | cons c cs ih =>
    have hc := h c (List.mem_cons_self c cs)
    have hcs : ∀ x ∈ cs, x.toNat < 128 := fun x hx => h x (List.mem_cons_of_mem c hx)
    simp [strBytes, List.map_cons, utf8EncodeChar_ascii c hc] at ih ⊢
    exact ih hcs

theorem strBytes_length_ascii (s : Str) (h : ∀ c ∈ s, c.toNat < 128) :
    (strBytes s).length = s.length := by
  rw [strBytes_ascii s h, List.length_map]

theorem utf8Decode_ascii (bs : Bytes) (h : ∀ b ∈ bs, b < 128) :
    utf8Decode bs = some (bs.map Char.ofNat) := by
  induction bs with
  | nil => rfl
  | cons b rest ih =>
    have hb := h b (List.mem_cons_self b rest)
    have hrest : ∀ x ∈ rest, x < 128 := fun x hx => h x (List.mem_cons_of_mem b hx)
    simp only [utf8Decode]
    rw [if_pos hb, ih hrest]
    rfl

theorem utf8Decode_strBytes (s : Str) (h : ∀ c ∈ s, c.toNat < 128) :
    utf8Decode (strBytes s) = some s := by
  rw [strBytes_ascii s h]
  rw [utf8Decode_ascii]
  · rw [List.map_map]
    congr 1
    apply List.map_congr_left ?_ |>.trans (List.map_id s)
    intro c _
    exact char_ofNat_toNat c
  · intro b hb
    rcases List.mem_map.mp hb with ⟨c, hc, rfl⟩
    exact h c hc

theorem natDigitsF_lt10 (fuel : Nat) : ∀ n d, d ∈ natDigitsF fuel n → d < 10 := by
  induction fuel with
  | zero =>
    intro n d hd
    simp [natDigitsF] at hd
    omega
  | succ fuel ih =>
    intro n d hd
    by_cases h : n < 10
    · simp [natDigitsF, h] at hd
      omega
    · simp [natDigitsF, h] at hd
      rcases hd with hd | hd
      · exact ih _ _ hd
      · omega

theorem natDigitsF_ne_nil (fuel n : Nat) : natDigitsF fuel n ≠ [] := by
  cases fuel with
  | zero => simp [natDigitsF]
  | succ fuel =>
    by_cases h : n < 10 <;> simp [natDigitsF, h]

theorem natDigitsF_foldl (fuel : Nat) : ∀ n a, n ≤ fuel →
    (natDigitsF fuel n).foldl (fun x d => x * 10 + d) a
      = a * 10 ^ (natDigitsF fuel n).length + n := by
  induction fuel with
  | zero =>
    intro n a hn
    interval_cases n
    simp [natDigitsF]
  | succ fuel ih =>
    intro n a hn
    by_cases h : n < 10
    · simp [natDigitsF, h]
    · have hrec : n / 10 ≤ fuel := by omega
      have hmod := Nat.div_add_mod n 10
      simp only [natDigitsF, h, if_false, List.foldl_append, List.length_append,
        List.foldl_cons, List.foldl_nil, List.length_cons, List.length_nil]
      rw [ih (n / 10) a hrec]
      ring_nf
      omega

theorem digitsVal_natDigits (n : Nat) : digitsVal (natDigits n) = n := by
  have := natDigitsF_foldl n n 0 (le_refl n)
  simpa [digitsVal, natDigits] using this

theorem decBytes_bounds (n : Nat) : ∀ b ∈ decBytes n, 48 ≤ b ∧ b ≤ 57 := by
  intro b hb
  rcases List.mem_map.mp hb with ⟨d, hd, rfl⟩
  have := natDigitsF_lt10 n n d hd
  omega

theorem decBytes_ne_nil (n : Nat) : decBytes n ≠ [] := by
  simp [decBytes, natDigits, natDigitsF_ne_nil]

theorem rustParseU64_digits (ds : List Nat) (hne : ds ≠ []) (hdig : ∀ d ∈ ds, d < 10)
    (hval : digitsVal ds < 2 ^ 64) :
    rustParseU64 (ds.map (fun d => Char.ofNat (48 + d))) = some (digitsVal ds) := by
  have htn : ∀ d ∈ ds, (Char.ofNat (48 + d)).toNat = 48 + d := by
    intro d hd
    exact char_toNat_ofNat _ (by have := hdig d hd; omega)
  rcases ds with _ | ⟨d0, ds'⟩
  · exact absurd rfl hne
  · have hd0 : d0 ∈ d0 :: ds' := List.mem_cons_self d0 ds'
    have hplus : ¬ (Char.ofNat (48 + d0) = '+') := by
      intro hq
      have h43 : (Char.ofNat (48 + d0)).toNat = 43 := by rw [hq]; rfl
      have := htn d0 hd0
      omega
    have hall : ((d0 :: ds').map (fun d => Char.ofNat (48 + d))).all isDigitChar = true := by
      rw [List.all_eq_true]
      intro c hc
      rcases List.mem_map.mp hc with ⟨d, hd, rfl⟩
      have h10 := hdig d hd
      have := htn d hd
      simp only [isDigitChar, decide_eq_true_eq]
      omega
    have hmapval : (((d0 :: ds').map (fun d => Char.ofNat (48 + d))).map
        (fun c => c.toNat - 48)) = d0 :: ds' := by
      rw [List.map_map]
      apply List.map_congr_left ?_ |>.trans (List.map_id _)
      intro d hd
      simp only [Function.comp_apply, id_eq]
      have := htn d hd
      omega
    simp only [rustParseU64, List.map_cons, hplus, if_false]
    simp only [List.map_cons] at hall hmapval
    simp only [hall, if_true, List.isEmpty_cons, Bool.false_eq_true, if_false]
    rw [hmapval, if_pos hval]

theorem parse_usize_decBytes (n : Nat) (h : n < 2 ^ 64) :
    parse_usize_from_buf (decBytes n) = .ok n := by
  have hlt : ∀ b ∈ decBytes n, b < 128 := fun b hb => by
    have := decBytes_bounds n b hb
    omega
  have hdec := utf8Decode_ascii (decBytes n) hlt
  have hchars : (decBytes n).map Char.ofNat
      = (natDigits n).map (fun d => Char.ofNat (48 + d)) := by
    simp [decBytes, List.map_map]
  have hru := rustParseU64_digits (natDigits n) (natDigitsF_ne_nil n n)
    (natDigitsF_lt10 n n) (by rw [digitsVal_natDigits]; exact h)
  rw [digitsVal_natDigits] at hru
  simp only [parse_usize_from_buf, hdec, hchars, hru]

/-! Lemmas about read_till_crlf and the encoder. -/

theorem read_till_crlf_append (ds rest : Bytes) (h : ∀ b ∈ ds, b ≠ 13) :
    read_till_crlf (ds ++ 13 :: 10 :: rest) = some (ds, ds.length + 2) := by
  induction ds with
  | nil => simp [read_till_crlf]
  | cons b ds ih =>
    have hb : b ≠ 13 := h b (List.mem_cons_self b ds)
    have hds : ∀ x ∈ ds, x ≠ 13 := fun x hx => h x (List.mem_cons_of_mem b hx)
    rcases hda : ds ++ 13 :: 10 :: rest with _ | ⟨y, ys⟩
    · exact absurd hda (by simp)
    · have hkey : read_till_crlf (b :: y :: ys) =
          match read_till_crlf (y :: ys) with
          | some (data, n) => some (b :: data, n + 1)
          | none => none := by
        simp only [read_till_crlf]
        rw [if_neg (fun hc => hb hc.1)]
      rw [List.cons_append, hda, hkey, ← hda, ih hds]
      simp only [List.length_cons, Option.some.injEq, Prod.mk.injEq, true_and]

theorem to_bytes_ne_nil (v : RespType) (bs : Bytes) (h : RespType.to_bytes v = some bs) :
    bs ≠ [] := by
  cases v with
  | SimpleString s => simp only [RespType.to_bytes, Option.some.injEq] at h; subst h; simp
  | BulkString s => simp only [RespType.to_bytes, Option.some.injEq] at h; subst h; simp
  | NullBulkString => simp only [RespType.to_bytes, Option.some.injEq] at h; subst h; simp
  | SimpleError s => simp only [RespType.to_bytes, Option.some.injEq] at h; subst h; simp
  | Integer n => simp [RespType.to_bytes] at h
  | Array items =>
    simp only [RespType.to_bytes] at h
    cases hl : RespType.to_bytes_list items with
    | some bss => rw [hl] at h; simp only [Option.some.injEq] at h; subst h; simp
    | none => rw [hl] at h; cases h

theorem to_bytes_list_mem_le (items : List RespType) (bss : Bytes) (V : RespType) (b : Bytes)
    (hl : RespType.to_bytes_list items = some bss) (hm : V ∈ items)
    (hb : RespType.to_bytes V = some b) : b.length ≤ bss.length := by
  induction items generalizing bss with
  | nil => cases hm
  | cons W ws ih =>
    simp only [RespType.to_bytes_list] at hl
    cases hW : RespType.to_bytes W with
    | none => rw [hW] at hl; cases hl
    | some bW =>
      cases hws : RespType.to_bytes_list ws with
      | none => rw [hW, hws] at hl; cases hl
      | some bws =>
        rw [hW, hws] at hl
        simp only [Option.some.injEq] at hl
        subst hl
        rcases List.mem_cons.mp hm with rfl | hmem
        · rw [hW] at hb
          injection hb with hb
          subst hb
          simp
        · have := ih bws hws hmem
          simp only [List.length_append]
          omega

theorem drop_len_add_two (ds : Bytes) (a b : Nat) (z : Bytes) :
    (ds ++ a :: b :: z).drop (ds.length + 2) = z := by
  have h1 : ds ++ a :: b :: z = (ds ++ [a, b]) ++ z := by simp
  have h2 : ds.length + 2 = (ds ++ [a, b]).length := by simp
  rw [h1, h2, List.drop_left]

theorem parseF_succ_dollar (f : Nat) (t : Bytes) :
    RespType.parseF (f + 1) (36 :: t) = RespType.new_bulk_string (36 :: t) := rfl

theorem parseF_succ_star (f : Nat) (t : Bytes) :
    RespType.parseF (f + 1) (42 :: t) = RespType.new_array (RespType.parseF f) (42 :: t) := rfl

mutual
theorem parse_to_bytes (V : RespType) (bs : Bytes) (hg : RespType.goodb V = true)
    (henc : RespType.to_bytes V = some bs) (fuel : Nat) (hfuel : bs.length + 1 ≤ fuel)
    (rest : Bytes) : RespType.parseF fuel (bs ++ rest) = .ok V bs.length := by
  cases V with
  | SimpleString s => simp [RespType.goodb] at hg
  | NullBulkString => simp [RespType.goodb] at hg
  | SimpleError s => simp [RespType.goodb] at hg
  | Integer n => simp [RespType.goodb] at hg
  | BulkString s =>
    simp only [RespType.goodb, Bool.and_eq_true, List.all_eq_true, decide_eq_true_eq] at hg
    obtain ⟨hascii, hlen⟩ := hg
    have hascii2 : ∀ c ∈ s, c.toNat < 128 := fun c hc => hascii c hc
    have hsb : (strBytes s).length = s.length := strBytes_length_ascii s hascii2
    simp only [RespType.to_bytes, Option.some.injEq] at henc
    subst henc
    cases fuel with
    | zero => exact absurd hfuel (by omega)
    | succ f =>
      simp only [List.cons_append, List.append_assoc, List.nil_append] at hfuel ⊢
      rw [parseF_succ_dollar]
      simp only [RespType.new_bulk_string, List.drop_succ_cons, List.drop_zero]
      have h13 : ∀ x ∈ decBytes s.length, x ≠ 13 := fun x hx => by
        have := decBytes_bounds s.length x hx
        omega
      simp only [read_till_crlf_append (decBytes s.length) (strBytes s ++ 13 :: 10 :: rest) h13,
        parse_usize_decBytes s.length hlen]
      have hlength : ¬ ((36 :: (decBytes s.length ++ 13 :: 10 :: (strBytes s ++ 13 :: 10 :: rest))).length
          ≤ (decBytes s.length).length + 2 + 1 + s.length) := by
        simp only [List.length_cons, List.length_append]
        omega
      rw [if_neg hlength]
      rw [drop_len_add_two]
      rw [List.take_left' hsb]
      rw [utf8Decode_strBytes s hascii2]
      simp only [List.length_cons, List.length_append, List.length_nil, hsb]
      congr 1
      omega
  | Array items =>
    simp only [RespType.goodb, Bool.and_eq_true, decide_eq_true_eq] at hg
    obtain ⟨hgl, hK⟩ := hg
    simp only [RespType.to_bytes] at henc
    cases hbss : RespType.to_bytes_list items with
    | none => rw [hbss] at henc; cases henc
    | some bss =>
      rw [hbss] at henc
      simp only [Option.some.injEq] at henc
      subst henc
      cases fuel with
      | zero => exact absurd hfuel (by omega)
      | succ f =>
        simp only [List.cons_append, List.append_assoc, List.nil_append] at hfuel ⊢
        rw [parseF_succ_star]
        simp only [RespType.new_array, List.drop_succ_cons, List.drop_zero]
        have h13 : ∀ x ∈ decBytes items.length, x ≠ 13 := fun x hx => by
          have := decBytes_bounds items.length x hx
          omega
        simp only [read_till_crlf_append (decBytes items.length) (bss ++ rest) h13,
          parse_usize_decBytes items.length hK]
        have hDpos : 1 ≤ (decBytes items.length).length := by
          have := decBytes_ne_nil items.length
          cases hd : decBytes items.length with
          | nil => exact absurd hd this
          | cons a l => simp
        have hfuelL : ∀ W ∈ items, ∀ b, RespType.to_bytes W = some b → b.length + 1 ≤ f := by
          intro W hW b hb
          have hble := to_bytes_list_mem_le items bss W b hbss hW hb
          simp only [List.length_cons, List.length_append] at hfuel
          omega
        have hbuf : (42 :: (decBytes items.length ++ 13 :: 10 :: (bss ++ rest))).drop
            ((decBytes items.length).length + 2 + 1) = bss ++ rest := by
          rw [List.drop_succ_cons, drop_len_add_two]
        have happ := parse_to_bytes_list items bss hgl hbss f hfuelL
          (42 :: (decBytes items.length ++ 13 :: 10 :: (bss ++ rest)))
          ((decBytes items.length).length + 2 + 1) [] rest hbuf
        rw [happ]
        simp only [List.nil_append, List.length_cons, List.length_append, List.length_nil]
        congr 1
        omega

theorem parse_to_bytes_list (l : List RespType) (bss : Bytes)
    (hg : RespType.goodb_list l = true) (hl : RespType.to_bytes_list l = some bss)
    (fuel : Nat) (hfuel : ∀ W ∈ l, ∀ b, RespType.to_bytes W = some b → b.length + 1 ≤ fuel)
    (buffer : Bytes) (bc : Nat) (acc : List RespType) (rest : Bytes)
    (hbuf : buffer.drop bc = bss ++ rest) :
    RespType.new_array_items (RespType.parseF fuel) buffer l.length bc acc
      = .ok (.Array (acc ++ l)) (bc + bss.length) := by
  cases l with
  | nil =>
    simp only [RespType.to_bytes_list, Option.some.injEq] at hl
    subst hl
    simp [RespType.new_array_items]
  | cons V vs =>
    simp only [RespType.goodb_list, Bool.and_eq_true] at hg
    obtain ⟨hgV, hgvs⟩ := hg
    simp only [RespType.to_bytes_list] at hl
    cases hV : RespType.to_bytes V with
    | none => rw [hV] at hl; cases hl
    | some bV =>
      cases hvs : RespType.to_bytes_list vs with
      | none => rw [hV, hvs] at hl; cases hl
      | some bvs =>
        rw [hV, hvs] at hl
        simp only [Option.some.injEq] at hl
        subst hl
        simp only [List.length_cons, RespType.new_array_items]
        have hbc : bc < buffer.length := by
          by_contra hge
          have hnil : buffer.drop bc = [] := List.drop_eq_nil_iff.mpr (by omega)
          rw [hnil] at hbuf
          have := to_bytes_ne_nil V bV hV
          cases hbV2 : bV with
          | nil => exact this hbV2
          | cons x xs => rw [hbV2] at hbuf; simp at hbuf
        rw [if_neg (by omega)]
        have hPV := parse_to_bytes V bV hgV hV fuel
          (hfuel V (List.mem_cons_self V vs) bV hV) (bvs ++ rest)
        rw [hbuf, List.append_assoc]
        simp only [hPV]
        have hbuf2 : buffer.drop (bc + bV.length) = bvs ++ rest := by
          have hdd : buffer.drop (bc + bV.length) = (buffer.drop bc).drop bV.length := by
            rw [List.drop_drop, Nat.add_comm]
          rw [hdd, hbuf, List.append_assoc, List.drop_left]
        have hrec := parse_to_bytes_list vs bvs hgvs hvs fuel
          (fun W hW b hb => hfuel W (List.mem_cons_of_mem V hW) b hb)
          buffer (bc + bV.length) (acc ++ [V]) rest hbuf2
        rw [hrec]
        simp only [List.append_assoc, List.singleton_append, List.length_append]
        congr 1
        omega
end

/-! Claim theorems for the RESP codec. -/

/-- C1 counterexample: the claim quantifies over every RespValue, but parse
accepts only dollar and star prefixes, so the encoding of a SimpleString
(here OK, the bytes plus O K CRLF) does not parse back at all: parse returns
InvalidDataTypePrefix, not the value with its byte count. -/
theorem C1_roundtrip_counterexample :
    RespType.to_bytes (.SimpleString "OK".data) = some [43, 79, 75, 13, 10] ∧
    RespType.parse [43, 79, 75, 13, 10] ≠ .ok (.SimpleString "OK".data) 5 := by
  refine ⟨rfl, ?_⟩
  intro h
  have h2 : RespType.parse [43, 79, 75, 13, 10] = .fail .InvalidDataTypePrefix := rfl
  rw [h2] at h
  exact ParseResult.noConfusion h

/-- C1 amended: for every RespValue built from BulkStrings of ASCII-only text
and Arrays of such values (sizes below 2^64), parse applied to the bytes of
to_bytes returns exactly the value together with a consumed count equal to
the length of those bytes.  The other variants are excluded: SimpleString,
SimpleError and NullBulkString encodings are rejected by parse, and a
BulkString with a multi-byte character is mis-encoded (its header holds the
character count). -/
theorem C1_roundtrip_amended (V : RespType) (bs : Bytes)
    (hg : RespType.goodb V = true) (henc : RespType.to_bytes V = some bs) :
    RespType.parse bs = .ok V bs.length := by
  have h := parse_to_bytes V bs hg henc (bs.length + 1) (le_refl _) []
  rw [List.append_nil] at h
  exact h

/-- C1 witness: the round-trip at the concrete value Array of one BulkString
hi, whose encoding is twelve bytes. -/
theorem C1_roundtrip_witness :
    RespType.goodb (.Array [.BulkString "hi".data]) = true ∧
    RespType.to_bytes (.Array [.BulkString "hi".data])
      = some [42, 49, 13, 10, 36, 50, 13, 10, 104, 105, 13, 10] ∧
    RespType.parse [42, 49, 13, 10, 36, 50, 13, 10, 104, 105, 13, 10]
      = .ok (.Array [.BulkString "hi".data]) 12 :=
  ⟨rfl, rfl, C1_roundtrip_amended _ _ rfl rfl⟩

/-- C2: the encoder writes bs.chars().count() into the BulkString header, the
character count, not the UTF-8 byte length.  At the one-character text
e-acute (scalar 233, UTF-8 bytes 195 169) the emitted header digit is 49
(the character 1) although the byte length of the text is 2, whose decimal
would be the byte 50: the code contradicts the byte-length contract its own
parser documents and uses. -/
theorem C2_bulk_length_header_char_count :
    RespType.to_bytes (.BulkString [Char.ofNat 233])
      = some [36, 49, 13, 10, 195, 169, 13, 10] ∧
    (strBytes [Char.ofNat 233]).length = 2 ∧ decBytes 2 = [50] :=
  ⟨rfl, rfl, rfl⟩

/-- C3: for every buffer that begins a well-formed bulk string header whose
declared length runs past the end of the buffer, the framed codec reports
Incomplete (read more bytes), not Invalid. -/
theorem C3_truncated_bulk_incomplete (buffer : Bytes) (len bytes_read : Nat)
    (hhead : RespType.parse_bulk_string_len buffer = .ok (some (len, bytes_read)))
    (htrunc : buffer.length < bytes_read + len) :
    frameDecodeBulkString buffer = .incomplete := by
  simp only [frameDecodeBulkString, hhead]
  rw [if_pos (by omega)]

/-- C3 witness: the seven bytes dollar 5 CRLF h e l declare a five-byte body
of which only three bytes arrived; the codec reports Incomplete. -/
theorem C3_truncated_bulk_incomplete_witness :
    RespType.parse_bulk_string_len [36, 53, 13, 10, 104, 101, 108] = .ok (some (5, 4)) ∧
    [36, 53, 13, 10, 104, 101, 108].length < 4 + 5 ∧
    frameDecodeBulkString [36, 53, 13, 10, 104, 101, 108] = .incomplete :=
  ⟨rfl, by decide, C3_truncated_bulk_incomplete _ _ _ rfl (by decide)⟩

/-! Claim theorems for the command and storage layers. -/

/-- C4: LPUSH does not behave as claimed.  On a fresh key DB::lpush stores
the values in argument order (VecDeque::from does not reverse), so the head
of the stored list is the first argument a, not the last argument b; the
follow-up LRANGE k 0 -1 returns the empty list (round_list_indices returns
(0, 0) whenever the raw stop index is below the raw start index, and -1 is
below 0), not the arguments in reverse order; and LPush::with_args parses
only args[1] as the value, silently dropping every further argument. -/
theorem C4_lpush_fresh_key_order_bug :
    DB.lpush [] "k".data ["a".data, "b".data]
      = .ok ([(⟨"k".data, none⟩, ⟨.List ["a".data, "b".data]⟩)], 2) ∧
    DB.lrange [(⟨"k".data, none⟩, ⟨.List ["a".data, "b".data]⟩)] "k".data 0 (-1) = .ok [] ∧
    LPush.with_args [.BulkString "k".data, .BulkString "a".data, .BulkString "b".data]
      = .ok ⟨"k".data, "a".data⟩ :=
  ⟨rfl, by decide, rfl⟩

/-- C7: the PSYNC response validation of perform_handshake is dead code.
The response parses through new_simple_string into a SimpleString, but the
FULLRESYNC check sits behind an if-let on the BulkString variant, which
never matches; a master answering plus XYZ CRLF (text XYZ, which does not
begin with FULLRESYNC) passes the handshake. -/
theorem C7_psync_validation_skipped :
    RespType.new_simple_string (strBytes "+XYZ\r\n".data)
      = .ok (.SimpleString "XYZ".data) 6 ∧
    strHasPrefixB "XYZ".data "FULLRESYNC".data = false ∧
    MasterServer.perform_handshake (strBytes "+PONG\r\n".data) (strBytes "+XYZ\r\n".data)
      = .ok () :=
  ⟨rfl, rfl, rfl⟩

/-- C9: the empty Array command frame panics.  from_resp_command_frame
begins with frame.split_at(1), which panics on an empty frame (mid greater
than len), so parsing does not complete with a Command or a CommandError as
the claim requires. -/
theorem C9_empty_frame_panics :
    Command.from_resp_command_frame 0 [] = .panicked := rfl

theorem mapGetKeyValue_insert_keeps_key (m : DBMap) (k : Key) (e : Entry)
    (k0 : Key) (e0 : Entry) (h : mapGetKeyValue m k.value = some (k0, e0)) :
    mapGetKeyValue (mapInsert m k e) k.value = some (k0, e) := by
  have hmem := List.mem_of_find?_eq_some h
  have hpred := List.find?_some h
  have hany : m.any (fun p => decide (p.1.value = k.value)) = true :=
    List.any_eq_true.mpr ⟨(k0, e0), hmem, hpred⟩
  simp only [mapInsert, hany, if_true]
  clear hany hmem hpred
  induction m with
  | nil => simp [mapGetKeyValue] at h
  | cons p ps ih =>
    obtain ⟨pk, pe⟩ := p
    by_cases hp : pk.value = k.value
    · rw [mapGetKeyValue, List.find?_cons_of_pos ps (by simpa using hp)] at h
      simp only [Option.some.injEq, Prod.mk.injEq] at h
      obtain ⟨h1, _⟩ := h
      subst h1
      simp only [mapGetKeyValue, List.map_cons, if_pos hp]
      exact List.find?_cons_of_pos _ (by simpa using hp)
    · rw [mapGetKeyValue, List.find?_cons_of_neg ps (by simpa using hp)] at h
      simp only [mapGetKeyValue, List.map_cons, if_neg hp]
      rw [List.find?_cons_of_neg _ (by simpa using hp)]
      exact ih h

/-- C10: a SET over a name already present in the keyspace leaves the stored
Key object unchanged.  DB::set inserts under Key::new(k, expiry_ts), but the
HashMap keeps the existing equal key (equality ignores expiry), so after the
set the map still holds the original key k0 with its old expiry while only
the entry is replaced, and the new deadline travels only in the SetKeyExpiry
event. -/
theorem C10_set_existing_keeps_key (m : DBMap) (k : Str) (v : Value)
    (d : Option Int) (k0 : Key) (e0 : Entry) (s : Str)
    (hlook : mapGetKeyValue m k = some (k0, e0)) (hstr : e0.value = .String s) :
    DB.set m k v d = .ok (mapInsert m ⟨k, d⟩ ⟨v⟩,
        match d with
        | some dd => [DBEvent.SetKeyExpiry (dd, k)]
        | none => []) ∧
    mapGetKeyValue (mapInsert m ⟨k, d⟩ ⟨v⟩) k = some (k0, ⟨v⟩) := by
  constructor
  · simp only [DB.set, hlook, hstr]
  · exact mapGetKeyValue_insert_keeps_key m ⟨k, d⟩ ⟨v⟩ k0 e0 hlook

/-- C10 witness: a key x stored with expiry 5; SET x new with deadline 9
replaces the entry, emits SetKeyExpiry 9, and the stored key keeps expiry
5. -/
theorem C10_set_existing_keeps_key_witness :
    DB.set [(⟨"x".data, some 5⟩, ⟨.String "old".data⟩)] "x".data (.String "new".data) (some 9)
      = .ok ([(⟨"x".data, some 5⟩, ⟨.String "new".data⟩)], [.SetKeyExpiry (9, "x".data)]) ∧
    mapGetKeyValue [(⟨"x".data, some 5⟩, ⟨.String "new".data⟩)] "x".data
      = some (⟨"x".data, some 5⟩, ⟨.String "new".data⟩) := by
  have h := C10_set_existing_keeps_key [(⟨"x".data, some 5⟩, ⟨.String "old".data⟩)]
    "x".data (.String "new".data) (some 9) ⟨"x".data, some 5⟩ ⟨.String "old".data⟩
    "old".data rfl rfl
  exact ⟨h.1, h.2⟩

/-- C8: one sweeper pass over the TTL index snapshot (sorted strictly
ascending by (deadline, name), the BTreeSet iteration order) deletes from
the store exactly the entries with deadline at most now, visiting them in
that ascending order (the fold runs over the sorted filter), removes exactly
those from the index, and returns the first deadline after now as the next
wake time, or none when the index is exhausted. -/
theorem C8_evict_keys_pass (store : DBMap) (exps : List (Int × Str)) (now : Int)
    (hsorted : exps.Pairwise (fun a b => pairLtB a b = true)) :
    KeyEvictor.evict_keys store exps now
      = ((exps.filter (fun p => decide (p.1 ≤ now))).foldl
           (fun st p => mapRemove st p.2) store,
         exps.filter (fun p => decide (now < p.1)),
         ((exps.filter (fun p => decide (now < p.1))).head?).map Prod.fst) := by
  induction exps generalizing store with
  | nil => rfl
  | cons c rest ih =>
    obtain ⟨hcr, hsr⟩ := List.pairwise_cons.mp hsorted
    obtain ⟨wh, key⟩ := c
    by_cases hc : now < wh
    · have hall : ∀ x ∈ rest, now < x.1 := by
        intro x hx
        have hlt := hcr x hx
        simp only [pairLtB] at hlt
        by_cases h1 : wh < x.1
        · omega
        · rw [if_neg h1] at hlt
          by_cases h2 : wh = x.1
          · omega
          · rw [if_neg h2] at hlt
            cases hlt
      have hf1 : (((wh, key) :: rest).filter (fun p => decide (p.1 ≤ now))) = [] := by
        rw [List.filter_eq_nil_iff]
        intro x hx
        rcases List.mem_cons.mp hx with rfl | hmem
        · simp; omega
        · have := hall x hmem
          simp
          omega
      have hf2 : (((wh, key) :: rest).filter (fun p => decide (now < p.1)))
          = (wh, key) :: rest := by
        rw [List.filter_eq_self]
        intro x hx
        rcases List.mem_cons.mp hx with rfl | hmem
        · simp; omega
        · have := hall x hmem
          simp
          omega
      rw [hf1, hf2]
      simp only [KeyEvictor.evict_keys, if_pos hc, List.foldl_nil, List.head?_cons]
      rfl
    · have hle : wh ≤ now := by omega
      have hf1 : (((wh, key) :: rest).filter (fun p => decide (p.1 ≤ now)))
          = (wh, key) :: rest.filter (fun p => decide (p.1 ≤ now)) := by
        rw [List.filter_cons_of_pos (by simp; omega)]
      have hf2 : (((wh, key) :: rest).filter (fun p => decide (now < p.1)))
          = rest.filter (fun p => decide (now < p.1)) := by
        rw [List.filter_cons_of_neg (by simp; omega)]
      rw [hf1, hf2]
      simp only [KeyEvictor.evict_keys, if_neg hc, List.foldl_cons]
      exact ih (mapRemove store key) hsr

/-- C8 witness: index entries (1, a) and (3, b) with now 2: the pass deletes
a from the store, keeps (3, b) in the index, and returns 3 as the next wake
time. -/
theorem C8_evict_keys_pass_witness :
    KeyEvictor.evict_keys
        [(⟨"a".data, some 1⟩, ⟨.String "x".data⟩), (⟨"b".data, some 3⟩, ⟨.String "y".data⟩)]
        [(1, "a".data), (3, "b".data)] 2
      = ([(⟨"b".data, some 3⟩, ⟨.String "y".data⟩)], [(3, "b".data)], some 3) := by
  have h := C8_evict_keys_pass
    [(⟨"a".data, some 1⟩, ⟨.String "x".data⟩), (⟨"b".data, some 3⟩, ⟨.String "y".data⟩)]
    [(1, "a".data), (3, "b".data)] 2 (by decide)
  exact h.trans (by decide)

theorem intToUsize_small (n : Int) (h0 : 0 ≤ n) (h : n < 2 ^ 64) :
    ((intToUsize n : Nat) : Int) = n := by
  unfold intToUsize
  rw [Int.emod_eq_of_lt h0 (by exact_mod_cast h)]
  exact Int.toNat_of_nonneg h0

theorem round_eq_normalize (L i : Int) (hL1 : 1 ≤ L) (hL : L < 2 ^ 63) :
    ((DB.round_list_index L i : Nat) : Int) = normalizeIdx L i := by
  unfold DB.round_list_index normalizeIdx
  by_cases h1 : i < 0
  · rw [if_pos h1, if_pos h1]
    have habs : ((i.natAbs : Nat) : Int) = -i := by
      rw [Int.natCast_natAbs, abs_of_neg h1]
    rw [habs]
    by_cases h2 : L - -i < 0
    · rw [if_pos h2]
      simp only [Nat.cast_zero]
      omega
    · rw [if_neg h2]
      rw [intToUsize_small _ (by omega) (by omega)]
      omega
  · rw [if_neg h1, if_neg h1]
    by_cases h2 : L ≤ i
    · rw [if_pos h2]
      rw [intToUsize_small _ (by omega) (by omega)]
      omega
    · rw [if_neg h2]
      rw [intToUsize_small _ (by omega) (by omega)]
      omega

theorem normalizeIdx_bounds (L i : Int) (hL1 : 1 ≤ L) :
    0 ≤ normalizeIdx L i ∧ normalizeIdx L i ≤ L - 1 := by
  unfold normalizeIdx
  by_cases h1 : i < 0
  · rw [if_pos h1]
    omega
  · rw [if_neg h1]
    omega

/-- C5: DB::lrange agrees with the specification text.  For a stored list l
of length at least one (below 2^63, the i64 cast bound): raw stop below raw
start returns empty; otherwise negative indices normalize to max(0, L+i) and
non-negative ones to min(L-1, i); after normalization, start below stop
returns the slice from normalized start through normalized stop inclusive,
equal indices a single-element slice, start above stop empty. -/
theorem C5_lrange_matches_spec (m : DBMap) (k : Str) (k0 : Key) (l : List Str) (a b : Int)
    (hlook : mapGetKeyValue m k = some (k0, ⟨.List l⟩))
    (hne : 1 ≤ l.length) (hlen : l.length < 2 ^ 63) :
    DB.lrange m k a b = .ok (lrangeSpec l a b) := by
  simp only [DB.lrange, hlook]
  congr 1
  have hL1 : (1 : Int) ≤ (l.length : Int) := by exact_mod_cast hne
  have hL2 : (l.length : Int) < 2 ^ 63 := by exact_mod_cast hlen
  unfold DB.round_list_indices lrangeSpec
  by_cases hra : b < a
  · rw [if_pos hra, if_pos hra]
    simp
  · rw [if_neg hra, if_neg hra]
    have hsa := round_eq_normalize (l.length : Int) a hL1 hL2
    have hsb := round_eq_normalize (l.length : Int) b hL1 hL2
    have hba := normalizeIdx_bounds (l.length : Int) a hL1
    have hbb := normalizeIdx_bounds (l.length : Int) b hL1
    by_cases hlt : DB.round_list_index (l.length : Int) a < DB.round_list_index (l.length : Int) b
    · rw [if_pos hlt, if_pos (show normalizeIdx (l.length : Int) a < normalizeIdx (l.length : Int) b by omega)]
      rw [show DB.round_list_index (l.length : Int) a = (normalizeIdx (l.length : Int) a).toNat by omega]
      rw [show DB.round_list_index (l.length : Int) b + 1 - (normalizeIdx (l.length : Int) a).toNat
          = (normalizeIdx (l.length : Int) b + 1 - normalizeIdx (l.length : Int) a).toNat by omega]
    · rw [if_neg hlt]
      by_cases heq : DB.round_list_index (l.length : Int) a = DB.round_list_index (l.length : Int) b
      · rw [if_pos heq]
        rw [if_neg (show ¬ normalizeIdx (l.length : Int) a < normalizeIdx (l.length : Int) b by omega)]
        rw [if_pos (show normalizeIdx (l.length : Int) a = normalizeIdx (l.length : Int) b by omega)]
        rw [show DB.round_list_index (l.length : Int) a + 1 - DB.round_list_index (l.length : Int) a
            = 1 by omega]
        rw [show DB.round_list_index (l.length : Int) a = (normalizeIdx (l.length : Int) a).toNat by omega]
      · rw [if_neg heq]
        rw [if_neg (show ¬ normalizeIdx (l.length : Int) a < normalizeIdx (l.length : Int) b by omega)]
        rw [if_neg (show ¬ normalizeIdx (l.length : Int) a = normalizeIdx (l.length : Int) b by omega)]
        simp

/-- C5 witness: the list a b c with raw indices -2 and 2 (the raw stop is
not below the raw start): -2 normalizes to 1 and 2 stays 2, giving the slice
b c; evaluated concretely on both sides. -/
theorem C5_lrange_matches_spec_witness :
    DB.lrange [(⟨"k".data, none⟩, ⟨.List ["a".data, "b".data, "c".data]⟩)] "k".data (-2) 2
      = .ok ["b".data, "c".data] ∧
    lrangeSpec ["a".data, "b".data, "c".data] (-2) 2 = ["b".data, "c".data] := by
  have h := C5_lrange_matches_spec [(⟨"k".data, none⟩, ⟨.List ["a".data, "b".data, "c".data]⟩)]
    "k".data ⟨"k".data, none⟩ ["a".data, "b".data, "c".data] (-2) 2 rfl (by decide) (by decide)
  have h2 : lrangeSpec ["a".data, "b".data, "c".data] (-2) 2 = ["b".data, "c".data] := by decide
  exact ⟨h.trans (congrArg Except.ok h2), h2⟩

theorem execLoop_length (replication : Replication) (cs : List Command) (st : DbState) :
    (execLoop replication cs st).1.length = cs.length := by
  induction cs generalizing st with
  | nil => rfl
  | cons c cs ih => simp [execLoop, ih]

theorem execLoop_get (replication : Replication) (cs : List Command) (st : DbState)
    (i : Nat) (c : Command) (h : cs[i]? = some c) :
    (execLoop replication cs st).1[i]?
      = some (Command.execute c replication (dbAfter replication (cs.take i) st)).1 := by
  induction cs generalizing st i with
  | nil => simp at h
  | cons d ds ih =>
    cases i with
    | zero =>
      simp only [List.getElem?_cons_zero, Option.some.injEq] at h
      subst h
      simp [execLoop, dbAfter]
    | succ j =>
      simp only [List.getElem?_cons_succ] at h
      have := ih (Command.execute d replication st).2 j h
      simp only [execLoop, List.getElem?_cons_succ]
      rw [this]
      simp [dbAfter, List.take_succ_cons]

/-- C6: for every queue of k commands accumulated between MULTI and EXEC,
MultiCommand::exec replies one Array of exactly k elements whose i-th
element is the reply of the i-th queued command run in submission order
against the store state left by the commands before it, and afterwards the
queue is empty and the pipeline inactive. -/
theorem C6_multi_exec (mc : MultiCommand) (replication : Replication) (st : DbState) :
    (MultiCommand.exec mc replication st).1
      = .Array (execLoop replication mc.commands st).1 ∧
    (execLoop replication mc.commands st).1.length = mc.commands.length ∧
    (∀ i c, mc.commands[i]? = some c →
      (execLoop replication mc.commands st).1[i]?
        = some (Command.execute c replication
            (dbAfter replication (mc.commands.take i) st)).1) ∧
    (MultiCommand.exec mc replication st).2.1 = MultiCommand.mk [] false := by
  refine ⟨rfl, execLoop_length replication mc.commands st, ?_, rfl⟩
  intro i c h
  exact execLoop_get replication mc.commands st i c h

/-- C6 witness: a queue of PING and GET q on an empty store replies the
two-element Array PONG, NullBulkString, with the first element the PING
reply, and leaves the pipeline empty and inactive. -/
theorem C6_multi_exec_witness :
    (MultiCommand.exec ⟨[.Ping ⟨none⟩, .Get ⟨"q".data⟩], true⟩ ⟨"i".data, 0, none, none⟩
        ⟨[], []⟩).1
      = .Array [.SimpleString "PONG".data, .NullBulkString] ∧
    (execLoop ⟨"i".data, 0, none, none⟩ [.Ping ⟨none⟩, .Get ⟨"q".data⟩] ⟨[], []⟩).1.length = 2 ∧
    (execLoop ⟨"i".data, 0, none, none⟩ [.Ping ⟨none⟩, .Get ⟨"q".data⟩] ⟨[], []⟩).1[0]?
      = some (.SimpleString "PONG".data) ∧
    (MultiCommand.exec ⟨[.Ping ⟨none⟩, .Get ⟨"q".data⟩], true⟩ ⟨"i".data, 0, none, none⟩
        ⟨[], []⟩).2.1 = MultiCommand.mk [] false := by
  have h := C6_multi_exec ⟨[.Ping ⟨none⟩, .Get ⟨"q".data⟩], true⟩ ⟨"i".data, 0, none, none⟩
    ⟨[], []⟩
  refine ⟨h.1.trans (by rfl), h.2.1.trans (by rfl), ?_, h.2.2.2⟩
  have h3 := h.2.2.1 0 (.Ping ⟨none⟩) rfl
  exact h3.trans (by rfl)
